import Mathlib

/-!
Verification of the coin-ledger core of the edurank-glow repository.

The ledger consists of two PL/pgSQL stored procedures defined in the
Supabase setup SQL (`SQL_SETUP.sql`, sections 6 and 7):
`public.deduct_user_coins` and `public.add_user_coins`.  They operate on
two tables: `public.profiles` (column `coins INTEGER NOT NULL DEFAULT 0`,
with `CHECK (coins >= 0)`) keyed by the user id, and the append-only
audit table `public.coin_transactions` (`user_id`, `action`, `details`
JSONB with keys `amount`, `reason`, optional `game_id`, `new_balance`).

We embed the database state shallowly: the `profiles` table becomes an
association list from user id to coin balance, and `coin_transactions`
becomes a list of records kept in insertion order.  The two procedures
are translated statement by statement; a `RAISE EXCEPTION` aborts the
transaction, so an error path returns the unmodified input state.  The
`FOR UPDATE` row lock serializes concurrent calls per account, which the
sequential semantics of the embedding reflects (one call completes —
read, check, write, log — before the next observes the state).

A second copy of `deduct_user_coins` is embedded inline in
`execute-setup.js`; its only behavioural difference is that the
insufficient-balance `RAISE EXCEPTION` carries no format arguments
(message `'Insufficient coins'` instead of
`'Insufficient coins. Have: %, Need: %'`).  It is modelled separately as
`deduct_user_coins_exec`.
-/

/-- The JSONB `details` object built by `jsonb_build_object` in both
procedures: keys `amount`, `reason`, `game_id` (only present for
deductions, possibly NULL) and `new_balance`. -/
structure TxDetails where
  amount : Int
  reason : String
  game_id : Option String
  new_balance : Int
  deriving DecidableEq, Repr

/-- One row of `public.coin_transactions` as inserted by the two
procedures: the user id, the `action` tag (`'coin_deduction'` or
`'coin_addition'`) and the JSONB details.  Rows are append-only. -/
structure CoinTransaction where
  user_id : String
  action : String
  details : TxDetails
  deriving DecidableEq, Repr

/-- The database state the ledger procedures touch: the `coins` column of
`public.profiles` as an association list keyed by user id, and the
`public.coin_transactions` table as a list in insertion order. -/
structure DBState where
  profiles : List (String × Int)
  coin_transactions : List CoinTransaction
  deriving DecidableEq, Repr

/-- `SELECT coins FROM public.profiles WHERE id = u`: first matching row,
`none` when the user has no profile row (`id` is the primary key, so at
most one row matches). -/
def lookupCoins : List (String × Int) → String → Option Int
  | [], _ => none
  | (k, v) :: rest, u => if k = u then some v else lookupCoins rest u

/-- `UPDATE public.profiles SET coins = v WHERE id = u`: rewrites the
`coins` value of every row whose id matches `u` (at most one, since `id`
is the primary key). -/
def setCoins : List (String × Int) → String → Int → List (String × Int)
  | [], _, _ => []
  | (k, w) :: rest, u, v =>
    if k = u then (k, v) :: setCoins rest u v else (k, w) :: setCoins rest u v

/-- The distinct `RAISE EXCEPTION` sites of the SQL-editor versions of
the two procedures.  `insufficientCoins` carries the two format
arguments of `'Insufficient coins. Have: %, Need: %'`: the current
balance `v_current_coins` and the requested `p_amount`. -/
inductive CoinError where
  | invalidAmount
  | userNotFound
  | insufficientCoins (current : Int) (requested : Int)
  deriving DecidableEq, Repr

/-- The message text each `RAISE EXCEPTION` in `SQL_SETUP.sql` produces,
with the `%` placeholders rendered as PL/pgSQL does. -/
def errorMessage : CoinError → String
  | .invalidAmount => "Amount must be positive"
  | .userNotFound => "User not found"
  | .insufficientCoins c r => "Insufficient coins. Have: " ++ toString c ++ ", Need: " ++ toString r

/-- `public.deduct_user_coins(p_user_id, p_amount, p_reason, p_game_id)`
from `SQL_SETUP.sql` section 6, statement by statement:
validate `p_amount > 0`; `SELECT coins ... FOR UPDATE` (the row lock that
serializes concurrent calls on this account); raise `'User not found'`
when no row exists; raise the insufficient-coins error (with current and
requested amounts) when `v_current_coins < p_amount`; otherwise persist
`v_new_coins := v_current_coins - p_amount`, insert one
`coin_transactions` row with action `'coin_deduction'`, and return
`v_new_coins`.  A raised exception aborts the transaction, leaving the
state unchanged. -/
def deduct_user_coins (s : DBState) (p_user_id : String) (p_amount : Int)
    (p_reason : String) (p_game_id : Option String) : Except CoinError Int × DBState :=
  if p_amount ≤ 0 then (.error .invalidAmount, s)
  else
    match lookupCoins s.profiles p_user_id with
    | none => (.error .userNotFound, s)
    | some v_current_coins =>
      if v_current_coins < p_amount then
        (.error (.insufficientCoins v_current_coins p_amount), s)
      else
        let v_new_coins := v_current_coins - p_amount
        (.ok v_new_coins,
          { profiles := setCoins s.profiles p_user_id v_new_coins,
            coin_transactions := s.coin_transactions ++
              [⟨p_user_id, "coin_deduction", ⟨p_amount, p_reason, p_game_id, v_new_coins⟩⟩] })

/-- `public.add_user_coins(p_user_id, p_amount, p_reason)` from
`SQL_SETUP.sql` section 7: validate `p_amount > 0`; `UPDATE ... SET
coins = coins + p_amount ... RETURNING coins INTO v_new_coins` (when no
row matches, nothing is updated and `v_new_coins` stays NULL, upon which
`'User not found'` is raised); insert one `coin_transactions` row with
action `'coin_addition'` (its JSONB has no `game_id` key, modelled as
`none`); return `v_new_coins`. -/
def add_user_coins (s : DBState) (p_user_id : String) (p_amount : Int)
    (p_reason : String) : Except CoinError Int × DBState :=
  if p_amount ≤ 0 then (.error .invalidAmount, s)
  else
    match lookupCoins s.profiles p_user_id with
    | none => (.error .userNotFound, s)
    | some coins =>
      let v_new_coins := coins + p_amount
      (.ok v_new_coins,
        { profiles := setCoins s.profiles p_user_id v_new_coins,
          coin_transactions := s.coin_transactions ++
            [⟨p_user_id, "coin_addition", ⟨p_amount, p_reason, none, v_new_coins⟩⟩] })

/-- The `RAISE EXCEPTION` sites of the copy of `deduct_user_coins`
embedded inline in `execute-setup.js`: same control flow, but its
insufficient-coins exception carries no format arguments. -/
inductive ExecCoinError where
  | invalidAmount
  | userNotFound
  | insufficientCoins
  deriving DecidableEq, Repr

/-- The message text each `RAISE EXCEPTION` of the `execute-setup.js`
copy produces: the insufficient-coins message is the bare
`'Insufficient coins'`. -/
def execErrorMessage : ExecCoinError → String
  | .invalidAmount => "Amount must be positive"
  | .userNotFound => "User not found"
  | .insufficientCoins => "Insufficient coins"

/-- The copy of `public.deduct_user_coins` created by
`execute-setup.js`: identical statements to the `SQL_SETUP.sql` version
except that the insufficient-balance exception carries neither the
current balance nor the requested amount. -/
def deduct_user_coins_exec (s : DBState) (p_user_id : String) (p_amount : Int)
    (p_reason : String) (p_game_id : Option String) : Except ExecCoinError Int × DBState :=
  if p_amount ≤ 0 then (.error .invalidAmount, s)
  else
    match lookupCoins s.profiles p_user_id with
    | none => (.error .userNotFound, s)
    | some v_current_coins =>
      if v_current_coins < p_amount then
        (.error .insufficientCoins, s)
      else
        let v_new_coins := v_current_coins - p_amount
        (.ok v_new_coins,
          { profiles := setCoins s.profiles p_user_id v_new_coins,
            coin_transactions := s.coin_transactions ++
              [⟨p_user_id, "coin_deduction", ⟨p_amount, p_reason, p_game_id, v_new_coins⟩⟩] })

/-- Does the character list `needle` occur at the head of `hay`? -/
def leadMatch : List Char → List Char → Bool
  | [], _ => true
  | _ :: _, [] => false
  | a :: as, b :: bs => a = b && leadMatch as bs

/-- Does the character list `needle` occur anywhere inside `hay`? -/
def occursIn (needle : List Char) : List Char → Bool
  | [] => needle.isEmpty
  | c :: cs => leadMatch needle (c :: cs) || occursIn needle cs

/-- Does `needle` occur as a substring of `hay`? -/
def strOccursIn (needle hay : String) : Bool :=
  occursIn needle.toList hay.toList

example : deduct_user_coins ⟨[("u1", 500)], []⟩ "u1" 200 "game_unlock" (some "epic-era-battles") =
    (.ok 300, ⟨[("u1", 300)],
      [⟨"u1", "coin_deduction", ⟨200, "game_unlock", some "epic-era-battles", 300⟩⟩]⟩) := by
  rfl

example : (deduct_user_coins ⟨[("u1", 5)], []⟩ "u1" 10 "x" none).1 =
    .error (.insufficientCoins 5 10) := by rfl

example : strOccursIn "5" (errorMessage (.insufficientCoins 5 10)) = true := by decide

example : strOccursIn "5" (execErrorMessage .insufficientCoins) = false := by decide

theorem lookupCoins_setCoins_self (l : List (String × Int)) (u : String) (v : Int) :
    lookupCoins (setCoins l u v) u = (lookupCoins l u).map fun _ => v := by
  induction l with
  | nil => rfl
  | cons p rest ih =>
    obtain ⟨k, w⟩ := p
    by_cases hk : k = u
    · simp [setCoins, lookupCoins, hk]
    · simpa [setCoins, lookupCoins, hk] using ih

theorem lookupCoins_setCoins_ne (l : List (String × Int)) (u w : String) (v : Int)
    (h : w ≠ u) : lookupCoins (setCoins l u v) w = lookupCoins l w := by
  induction l with
  | nil => rfl
  | cons p rest ih =>
    obtain ⟨k, x⟩ := p
    by_cases hk : k = u
    · simpa [setCoins, lookupCoins, hk, Ne.symm h] using ih
    · by_cases hw : k = w
      · simp [setCoins, lookupCoins, hk, hw, h]
      · simpa [setCoins, lookupCoins, hk, hw] using ih

theorem deduct_invalid (s : DBState) (u : String) (amt : Int) (r : String) (g : Option String)
    (h : amt ≤ 0) : deduct_user_coins s u amt r g = (.error .invalidAmount, s) := by
  simp [deduct_user_coins, h]

theorem deduct_notFound (s : DBState) (u : String) (amt : Int) (r : String) (g : Option String)
    (h : 0 < amt) (hl : lookupCoins s.profiles u = none) :
    deduct_user_coins s u amt r g = (.error .userNotFound, s) := by
  simp [deduct_user_coins, not_le.mpr h, hl]

theorem deduct_insufficient (s : DBState) (u : String) (amt B : Int) (r : String)
    (g : Option String) (h : 0 < amt) (hl : lookupCoins s.profiles u = some B)
    (hB : B < amt) :
    deduct_user_coins s u amt r g = (.error (.insufficientCoins B amt), s) := by
  simp [deduct_user_coins, not_le.mpr h, hl, hB]

theorem deduct_ok (s : DBState) (u : String) (amt B : Int) (r : String) (g : Option String)
    (h : 0 < amt) (hl : lookupCoins s.profiles u = some B) (hB : amt ≤ B) :
    deduct_user_coins s u amt r g = (.ok (B - amt),
      { profiles := setCoins s.profiles u (B - amt),
        coin_transactions := s.coin_transactions ++
          [⟨u, "coin_deduction", ⟨amt, r, g, B - amt⟩⟩] }) := by
  simp [deduct_user_coins, not_le.mpr h, hl, not_lt.mpr hB]

theorem add_invalid (s : DBState) (u : String) (amt : Int) (r : String)
    (h : amt ≤ 0) : add_user_coins s u amt r = (.error .invalidAmount, s) := by
  simp [add_user_coins, h]

theorem add_notFound (s : DBState) (u : String) (amt : Int) (r : String)
    (h : 0 < amt) (hl : lookupCoins s.profiles u = none) :
    add_user_coins s u amt r = (.error .userNotFound, s) := by
  simp [add_user_coins, not_le.mpr h, hl]

theorem add_ok (s : DBState) (u : String) (amt B : Int) (r : String)
    (h : 0 < amt) (hl : lookupCoins s.profiles u = some B) :
    add_user_coins s u amt r = (.ok (B + amt),
      { profiles := setCoins s.profiles u (B + amt),
        coin_transactions := s.coin_transactions ++
          [⟨u, "coin_addition", ⟨amt, r, none, B + amt⟩⟩] }) := by
  simp [add_user_coins, not_le.mpr h, hl]

theorem deduct_ok_inv (s t : DBState) (u : String) (amt : Int) (r : String) (g : Option String)
    (v : Int) (h : deduct_user_coins s u amt r g = (.ok v, t)) :
    ∃ B, lookupCoins s.profiles u = some B ∧ 0 < amt ∧ amt ≤ B ∧ v = B - amt ∧
      t = { profiles := setCoins s.profiles u (B - amt),
            coin_transactions := s.coin_transactions ++
              [⟨u, "coin_deduction", ⟨amt, r, g, B - amt⟩⟩] } := by
  by_cases ha : amt ≤ 0
  · rw [deduct_invalid s u amt r g ha] at h
    simp at h
  · push_neg at ha
    cases hl : lookupCoins s.profiles u with
    | none =>
      rw [deduct_notFound s u amt r g ha hl] at h
      simp at h
    | some B =>
      by_cases hB : B < amt
      · rw [deduct_insufficient s u amt B r g ha hl hB] at h
        simp at h
      · push_neg at hB
        rw [deduct_ok s u amt B r g ha hl hB, Prod.mk.injEq] at h
        obtain ⟨h1, h2⟩ := h
        injection h1 with h1
        exact ⟨B, rfl, ha, hB, h1.symm, h2.symm⟩

theorem add_ok_inv (s t : DBState) (u : String) (amt : Int) (r : String)
    (v : Int) (h : add_user_coins s u amt r = (.ok v, t)) :
    ∃ B, lookupCoins s.profiles u = some B ∧ 0 < amt ∧ v = B + amt ∧
      t = { profiles := setCoins s.profiles u (B + amt),
            coin_transactions := s.coin_transactions ++
              [⟨u, "coin_addition", ⟨amt, r, none, B + amt⟩⟩] } := by
  by_cases ha : amt ≤ 0
  · rw [add_invalid s u amt r ha] at h
    simp at h
  · push_neg at ha
    cases hl : lookupCoins s.profiles u with
    | none =>
      rw [add_notFound s u amt r ha hl] at h
      simp at h
    | some B =>
      rw [add_ok s u amt B r ha hl, Prod.mk.injEq] at h
      obtain ⟨h1, h2⟩ := h
      injection h1 with h1
      exact ⟨B, rfl, ha, h1.symm, h2.symm⟩

/-- Every profile row that exists has a non-negative `coins` value (the
`coins_non_negative` CHECK constraint of `public.profiles`). -/
def NonNegBalances (s : DBState) : Prop :=
  ∀ u b, lookupCoins s.profiles u = some b → 0 ≤ b

/-- States reachable from `s` through finite sequences of successful
ledger operations (`deduct_user_coins` / `add_user_coins` calls that
return a value, i.e. commit). -/
inductive ReachableLedger : DBState → DBState → Prop where
  | refl (s : DBState) : ReachableLedger s s
  | step_deduct (s t t' : DBState) (u : String) (amt : Int) (r : String)
      (g : Option String) (v : Int) :
      ReachableLedger s t → deduct_user_coins t u amt r g = (.ok v, t') →
      ReachableLedger s t'
  | step_add (s t t' : DBState) (u : String) (amt : Int) (r : String) (v : Int) :
      ReachableLedger s t → add_user_coins t u amt r = (.ok v, t') →
      ReachableLedger s t'

theorem nonneg_of_deduct (t t' : DBState) (u : String) (amt : Int) (r : String)
    (g : Option String) (v : Int) (hnn : NonNegBalances t)
    (h : deduct_user_coins t u amt r g = (.ok v, t')) : NonNegBalances t' := by
  obtain ⟨B, hl, ha, hB, hv, ht⟩ := deduct_ok_inv t t' u amt r g v h
  have hp : t'.profiles = setCoins t.profiles u (B - amt) := by rw [ht]
  intro w b hw
  rw [hp] at hw
  by_cases hwu : w = u
  · subst hwu
    rw [lookupCoins_setCoins_self, hl] at hw
    simp at hw
    omega
  · rw [lookupCoins_setCoins_ne _ _ _ _ hwu] at hw
    exact hnn w b hw

theorem nonneg_of_add (t t' : DBState) (u : String) (amt : Int) (r : String)
    (v : Int) (hnn : NonNegBalances t)
    (h : add_user_coins t u amt r = (.ok v, t')) : NonNegBalances t' := by
  obtain ⟨B, hl, ha, hv, ht⟩ := add_ok_inv t t' u amt r v h
  have hB : 0 ≤ B := hnn u B hl
  have hp : t'.profiles = setCoins t.profiles u (B + amt) := by rw [ht]
  intro w b hw
  rw [hp] at hw
  by_cases hwu : w = u
  · subst hwu
    rw [lookupCoins_setCoins_self, hl] at hw
    simp at hw
    omega
  · rw [lookupCoins_setCoins_ne _ _ _ _ hwu] at hw
    exact hnn w b hw

/-- C1: starting from any state whose balances are all non-negative,
every state reachable through finite sequences of credit/debit calls
again has only non-negative balances; moreover a debit whose amount
exceeds the current balance is rejected with the insufficient-balance
error (carrying the current balance, not clamping it to 0) and returns
the state unchanged. -/
theorem claim_C1_balance_never_negative :
    (∀ s0 s : DBState, NonNegBalances s0 → ReachableLedger s0 s → NonNegBalances s) ∧
    (∀ (s : DBState) (u : String) (amt B : Int) (r : String) (g : Option String),
      lookupCoins s.profiles u = some B → 0 < amt → B < amt →
      deduct_user_coins s u amt r g = (.error (.insufficientCoins B amt), s)) := by
  constructor
  · intro s0 s h0 hreach
    induction hreach with
    | refl => exact h0
    | step_deduct t t' u amt r g v hr hstep ih => exact nonneg_of_deduct t t' u amt r g v ih hstep
    | step_add t t' u amt r v hr hstep ih => exact nonneg_of_add t t' u amt r v ih hstep
  · intro s u amt B r g hl ha hB
    exact deduct_insufficient s u amt B r g ha hl hB

/-- C1 witness: from the concrete account `u1` with 5 coins, one
successful debit of 3 reaches a state whose balances are all
non-negative, and an over-debit of 10 there is rejected with the
insufficient-balance error, state unchanged. -/
theorem claim_C1_balance_never_negative_witness :
    NonNegBalances ⟨[("u1", 2)], [⟨"u1", "coin_deduction", ⟨3, "game_unlock", none, 2⟩⟩]⟩ ∧
    deduct_user_coins ⟨[("u1", 2)], [⟨"u1", "coin_deduction", ⟨3, "game_unlock", none, 2⟩⟩]⟩
        "u1" 10 "x" none =
      (.error (.insufficientCoins 2 10),
        ⟨[("u1", 2)], [⟨"u1", "coin_deduction", ⟨3, "game_unlock", none, 2⟩⟩]⟩) := by
  constructor
  · exact claim_C1_balance_never_negative.1 ⟨[("u1", 5)], []⟩ _
      (by intro u b h
          simp only [lookupCoins] at h
          split at h
          · injection h with h
            omega
          · exact Option.noConfusion h)
      (ReachableLedger.step_deduct ⟨[("u1", 5)], []⟩ ⟨[("u1", 5)], []⟩ _
        "u1" 3 "game_unlock" none 2 (ReachableLedger.refl _) (by rfl))
  · exact claim_C1_balance_never_negative.2 _ "u1" 10 2 "x" none (by rfl)
      (by decide) (by decide)

/-- C2: a debit of `0 < amt ≤ B` from an account holding `B` returns
`B - amt`, stores `B - amt` as the new balance, and appends exactly one
`coin_deduction` entry recording the amount and the resulting balance. -/
theorem claim_C2_debit_success (s : DBState) (u : String) (amt B : Int) (r : String)
    (g : Option String) (hl : lookupCoins s.profiles u = some B)
    (h0 : 0 < amt) (hB : amt ≤ B) :
    (deduct_user_coins s u amt r g).1 = .ok (B - amt) ∧
    lookupCoins (deduct_user_coins s u amt r g).2.profiles u = some (B - amt) ∧
    (deduct_user_coins s u amt r g).2.coin_transactions =
      s.coin_transactions ++ [⟨u, "coin_deduction", ⟨amt, r, g, B - amt⟩⟩] := by
  rw [deduct_ok s u amt B r g h0 hl hB]
  refine ⟨rfl, ?_, rfl⟩
  simp [lookupCoins_setCoins_self, hl]

/-- C2 witness: the spec scenario — balance 500, debit of 200 with
reason `game_unlock` for game `epic-era-battles` returns 300, stores
300, and logs one deduction entry with resulting balance 300. -/
theorem claim_C2_debit_success_witness :
    (deduct_user_coins ⟨[("acct", 500)], []⟩ "acct" 200 "game_unlock"
        (some "epic-era-battles")).1 = .ok 300 ∧
    lookupCoins (deduct_user_coins ⟨[("acct", 500)], []⟩ "acct" 200 "game_unlock"
        (some "epic-era-battles")).2.profiles "acct" = some 300 ∧
    (deduct_user_coins ⟨[("acct", 500)], []⟩ "acct" 200 "game_unlock"
        (some "epic-era-battles")).2.coin_transactions =
      [] ++ [⟨"acct", "coin_deduction", ⟨200, "game_unlock", some "epic-era-battles", 300⟩⟩] :=
  claim_C2_debit_success ⟨[("acct", 500)], []⟩ "acct" 200 500 "game_unlock"
    (some "epic-era-battles") (by rfl) (by decide) (by decide)

/-- C3: a credit of `amt > 0` to an existing account holding `B` returns
`B + amt`, stores `B + amt` as the new balance, and appends exactly one
`coin_addition` entry recording the amount and the resulting balance. -/
theorem claim_C3_credit_success (s : DBState) (u : String) (amt B : Int) (r : String)
    (hl : lookupCoins s.profiles u = some B) (h0 : 0 < amt) :
    (add_user_coins s u amt r).1 = .ok (B + amt) ∧
    lookupCoins (add_user_coins s u amt r).2.profiles u = some (B + amt) ∧
    (add_user_coins s u amt r).2.coin_transactions =
      s.coin_transactions ++ [⟨u, "coin_addition", ⟨amt, r, none, B + amt⟩⟩] := by
  rw [add_ok s u amt B r h0 hl]
  refine ⟨rfl, ?_, rfl⟩
  simp [lookupCoins_setCoins_self, hl]

/-- C3 witness: the spec scenario continued — balance 300, credit of 50
with reason `quiz_reward` returns 350, stores 350, and logs one addition
entry with resulting balance 350. -/
theorem claim_C3_credit_success_witness :
    (add_user_coins ⟨[("acct", 300)], []⟩ "acct" 50 "quiz_reward").1 = .ok 350 ∧
    lookupCoins (add_user_coins ⟨[("acct", 300)], []⟩ "acct" 50
        "quiz_reward").2.profiles "acct" = some 350 ∧
    (add_user_coins ⟨[("acct", 300)], []⟩ "acct" 50 "quiz_reward").2.coin_transactions =
      [] ++ [⟨"acct", "coin_addition", ⟨50, "quiz_reward", none, 350⟩⟩] :=
  claim_C3_credit_success ⟨[("acct", 300)], []⟩ "acct" 50 300 "quiz_reward"
    (by rfl) (by decide)

/-- C4: complete error taxonomy of both operations.  A debit fails with
the invalid-amount error exactly when `amt ≤ 0` (amounts are integers by
the `INTEGER` parameter type), with the user-not-found error exactly
when the amount is positive but the account row does not exist, with the
insufficient-coins error exactly when the amount is positive, the row
exists and its balance is below the amount, and succeeds in every
remaining case; a credit fails with the invalid-amount error exactly
when `amt ≤ 0`, with the user-not-found error exactly when the amount is
positive but the row does not exist, and succeeds in every remaining
case. -/
theorem claim_C4_error_taxonomy (s : DBState) (u : String) (amt : Int) (r r2 : String)
    (g : Option String) :
    ((deduct_user_coins s u amt r g).1 = .error .invalidAmount ↔ amt ≤ 0) ∧
    ((deduct_user_coins s u amt r g).1 = .error .userNotFound ↔
      0 < amt ∧ lookupCoins s.profiles u = none) ∧
    ((∃ c n, (deduct_user_coins s u amt r g).1 = .error (.insufficientCoins c n)) ↔
      0 < amt ∧ ∃ B, lookupCoins s.profiles u = some B ∧ B < amt) ∧
    ((∃ v, (deduct_user_coins s u amt r g).1 = .ok v) ↔
      0 < amt ∧ ∃ B, lookupCoins s.profiles u = some B ∧ amt ≤ B) ∧
    ((add_user_coins s u amt r2).1 = .error .invalidAmount ↔ amt ≤ 0) ∧
    ((add_user_coins s u amt r2).1 = .error .userNotFound ↔
      0 < amt ∧ lookupCoins s.profiles u = none) ∧
    ((∃ v, (add_user_coins s u amt r2).1 = .ok v) ↔
      0 < amt ∧ ∃ B, lookupCoins s.profiles u = some B) := by
  by_cases ha : amt ≤ 0
  · have ha' : ¬ 0 < amt := not_lt.mpr ha
    rw [deduct_invalid s u amt r g ha, add_invalid s u amt r2 ha]
    simp [ha, ha']
  · push_neg at ha
    have ha' : ¬ amt ≤ 0 := not_le.mpr ha
    cases hl : lookupCoins s.profiles u with
    | none =>
      rw [deduct_notFound s u amt r g ha hl, add_notFound s u amt r2 ha hl]
      simp [ha, ha']
    | some B =>
      by_cases hB : B < amt
      · rw [deduct_insufficient s u amt B r g ha hl hB, add_ok s u amt B r2 ha hl]
        simp [ha, ha', hB, not_le.mpr hB]
      · push_neg at hB
        rw [deduct_ok s u amt B r g ha hl hB, add_ok s u amt B r2 ha hl]
        simp [ha, ha', hB, not_lt.mpr hB]

/-- C5: whenever a debit or a credit fails with any error, the returned
state is exactly the pre-state — the balance is unchanged and no ledger
entry has been appended (`RAISE EXCEPTION` aborts the transaction, and
every check precedes every mutation). -/
theorem claim_C5_atomic_on_error (s : DBState) (u : String) (amt : Int) (r r2 : String)
    (g : Option String) :
    (∀ e, (deduct_user_coins s u amt r g).1 = .error e → (deduct_user_coins s u amt r g).2 = s) ∧
    (∀ e, (add_user_coins s u amt r2).1 = .error e → (add_user_coins s u amt r2).2 = s) := by
  by_cases ha : amt ≤ 0
  · rw [deduct_invalid s u amt r g ha, add_invalid s u amt r2 ha]
    exact ⟨fun _ _ => rfl, fun _ _ => rfl⟩
  · push_neg at ha
    cases hl : lookupCoins s.profiles u with
    | none =>
      rw [deduct_notFound s u amt r g ha hl, add_notFound s u amt r2 ha hl]
      exact ⟨fun _ _ => rfl, fun _ _ => rfl⟩
    | some B =>
      by_cases hB : B < amt
      · rw [deduct_insufficient s u amt B r g ha hl hB, add_ok s u amt B r2 ha hl]
        exact ⟨fun _ _ => rfl, fun e he => by simp at he⟩
      · push_neg at hB
        rw [deduct_ok s u amt B r g ha hl hB, add_ok s u amt B r2 ha hl]
        exact ⟨fun e he => by simp at he, fun e he => by simp at he⟩

/-- C5 witness: a debit of −5 and a credit of −5 on the concrete
one-account state both fail (invalid amount) and return the state
exactly as it was. -/
theorem claim_C5_atomic_on_error_witness :
    (deduct_user_coins ⟨[("u1", 5)], []⟩ "u1" (-5) "x" none).2 = ⟨[("u1", 5)], []⟩ ∧
    (add_user_coins ⟨[("u1", 5)], []⟩ "u1" (-5) "y").2 = ⟨[("u1", 5)], []⟩ :=
  ⟨(claim_C5_atomic_on_error ⟨[("u1", 5)], []⟩ "u1" (-5) "x" "y" none).1 .invalidAmount (by rfl),
   (claim_C5_atomic_on_error ⟨[("u1", 5)], []⟩ "u1" (-5) "x" "y" none).2 .invalidAmount (by rfl)⟩

/-- C6: round-trip law.  With balance `B` and `0 < amt ≤ B`, a debit of
`amt` followed by a credit of `amt` restores the stored balance to `B`
exactly, and a credit of `amt` followed by a debit of `amt` also
restores `B` (the debit precondition holds because `B + amt ≥ amt`). -/
theorem claim_C6_round_trip (s : DBState) (u : String) (amt B : Int) (r1 r2 : String)
    (g : Option String) (hl : lookupCoins s.profiles u = some B)
    (h0 : 0 < amt) (hB : amt ≤ B) :
    lookupCoins (add_user_coins (deduct_user_coins s u amt r1 g).2 u amt r2).2.profiles u =
      some B ∧
    lookupCoins (deduct_user_coins (add_user_coins s u amt r2).2 u amt r1 g).2.profiles u =
      some B := by
  constructor
  · rw [deduct_ok s u amt B r1 g h0 hl hB]
    have hl1 : lookupCoins (setCoins s.profiles u (B - amt)) u = some (B - amt) := by
      simp [lookupCoins_setCoins_self, hl]
    rw [add_ok _ u amt (B - amt) r2 h0 (by simpa using hl1)]
    simp only [lookupCoins_setCoins_self]
    rw [hl]
    exact congrArg some (show B - amt + amt = B by omega)
  · rw [add_ok s u amt B r2 h0 hl]
    have hl1 : lookupCoins (setCoins s.profiles u (B + amt)) u = some (B + amt) := by
      simp [lookupCoins_setCoins_self, hl]
    rw [deduct_ok _ u amt (B + amt) r1 g h0 (by simpa using hl1) (by omega)]
    simp only [lookupCoins_setCoins_self]
    rw [hl]
    exact congrArg some (show B + amt - amt = B by omega)

/-- C6 witness: balance 500, debit 200 then credit 200 restores 500, and
credit 200 then debit 200 restores 500. -/
theorem claim_C6_round_trip_witness :
    lookupCoins (add_user_coins (deduct_user_coins ⟨[("u1", 500)], []⟩ "u1" 200 "a"
        none).2 "u1" 200 "b").2.profiles "u1" = some 500 ∧
    lookupCoins (deduct_user_coins (add_user_coins ⟨[("u1", 500)], []⟩ "u1" 200
        "b").2 "u1" 200 "a" none).2.profiles "u1" = some 500 :=
  claim_C6_round_trip ⟨[("u1", 500)], []⟩ "u1" 200 500 "a" "b" none (by rfl)
    (by decide) (by decide)

/-- C10: the amount-positivity check precedes the account lookup in both
operations: for every account id — including ids with no profile row —
and every non-positive amount, both operations fail with the
invalid-amount error (never with user-not-found) and leave the state
unchanged. -/
theorem claim_C10_amount_checked_before_lookup (s : DBState) (u : String) (amt : Int)
    (r r2 : String) (g : Option String) (h : amt ≤ 0) :
    deduct_user_coins s u amt r g = (.error .invalidAmount, s) ∧
    add_user_coins s u amt r2 = (.error .invalidAmount, s) :=
  ⟨deduct_invalid s u amt r g h, add_invalid s u amt r2 h⟩

/-- C10 witness: on a state with no account rows at all, a debit and a
credit of 0 to the unknown id `ghost-id` both report the invalid-amount
error, not user-not-found. -/
theorem claim_C10_amount_checked_before_lookup_witness :
    deduct_user_coins ⟨[], []⟩ "ghost-id" 0 "x" none = (.error .invalidAmount, ⟨[], []⟩) ∧
    add_user_coins ⟨[], []⟩ "ghost-id" 0 "y" = (.error .invalidAmount, ⟨[], []⟩) :=
  claim_C10_amount_checked_before_lookup ⟨[], []⟩ "ghost-id" 0 "x" "y" none (by decide)

/-- The rows of the transaction log belonging to user `u`, in insertion
order (`SELECT * FROM public.coin_transactions WHERE user_id = u`
ordered by insertion). -/
def userEntries (l : List CoinTransaction) (u : String) : List CoinTransaction :=
  l.filter fun e => e.user_id == u

/-- The signed balance change an entry represents when replaying the
log: `+amount` for a `coin_addition`, `-amount` for a `coin_deduction`. -/
def entryDelta (e : CoinTransaction) : Int :=
  if e.action = "coin_addition" then e.details.amount else -e.details.amount

/-- Replay a list of log entries from running balance `b`: each step
adds the entry's delta to the fold value and checks that the result
equals the entry's recorded `new_balance`; returns the final fold
value, or `none` as soon as some recorded `new_balance` disagrees. -/
def replayFrom (b : Int) : List CoinTransaction → Option Int
  | [] => some b
  | e :: rest =>
    if b + entryDelta e = e.details.new_balance then replayFrom (b + entryDelta e) rest
    else none

/-- The log is self-verifying at state `s`: for every existing account,
replaying its entries from 0 reproduces every recorded `new_balance`
and ends exactly at the stored balance. -/
def LogConsistent (s : DBState) : Prop :=
  ∀ u B, lookupCoins s.profiles u = some B →
    replayFrom 0 (userEntries s.coin_transactions u) = some B

theorem replayFrom_append (b : Int) (l1 l2 : List CoinTransaction) :
    replayFrom b (l1 ++ l2) = (replayFrom b l1).bind fun c => replayFrom c l2 := by
  induction l1 generalizing b with
  | nil => simp [replayFrom]
  | cons e rest ih =>
    by_cases hc : b + entryDelta e = e.details.new_balance
    · simp [replayFrom, hc, ih]
    · simp [replayFrom, hc]

theorem logConsistent_deduct (t t' : DBState) (u : String) (amt : Int) (r : String)
    (g : Option String) (v : Int) (hlc : LogConsistent t)
    (h : deduct_user_coins t u amt r g = (.ok v, t')) : LogConsistent t' := by
  obtain ⟨B, hl, ha, hB, hv, ht⟩ := deduct_ok_inv t t' u amt r g v h
  have hp : t'.profiles = setCoins t.profiles u (B - amt) := by rw [ht]
  have hc : t'.coin_transactions =
      t.coin_transactions ++ [⟨u, "coin_deduction", ⟨amt, r, g, B - amt⟩⟩] := by rw [ht]
  intro w B' hw
  rw [hp] at hw
  rw [hc]
  by_cases hwu : w = u
  · subst hwu
    rw [lookupCoins_setCoins_self, hl] at hw
    simp only [Option.map] at hw
    injection hw with hw
    rw [userEntries, List.filter_append, ← userEntries]
    rw [replayFrom_append, hlc w B hl]
    simp [userEntries, replayFrom, entryDelta, ← hw]
    omega
  · rw [lookupCoins_setCoins_ne _ _ _ _ hwu] at hw
    rw [userEntries, List.filter_append, ← userEntries]
    have hf : List.filter (fun e => e.user_id == w)
        [(⟨u, "coin_deduction", ⟨amt, r, g, B - amt⟩⟩ : CoinTransaction)] = [] := by
      simp [Ne.symm hwu]
    rw [hf, List.append_nil]
    exact hlc w B' hw

theorem logConsistent_add (t t' : DBState) (u : String) (amt : Int) (r : String)
    (v : Int) (hlc : LogConsistent t)
    (h : add_user_coins t u amt r = (.ok v, t')) : LogConsistent t' := by
  obtain ⟨B, hl, ha, hv, ht⟩ := add_ok_inv t t' u amt r v h
  have hp : t'.profiles = setCoins t.profiles u (B + amt) := by rw [ht]
  have hc : t'.coin_transactions =
      t.coin_transactions ++ [⟨u, "coin_addition", ⟨amt, r, none, B + amt⟩⟩] := by rw [ht]
  intro w B' hw
  rw [hp] at hw
  rw [hc]
  by_cases hwu : w = u
  · subst hwu
    rw [lookupCoins_setCoins_self, hl] at hw
    simp only [Option.map] at hw
    injection hw with hw
    rw [userEntries, List.filter_append, ← userEntries]
    rw [replayFrom_append, hlc w B hl]
    simp [userEntries, replayFrom, entryDelta, ← hw]
  · rw [lookupCoins_setCoins_ne _ _ _ _ hwu] at hw
    rw [userEntries, List.filter_append, ← userEntries]
    have hf : List.filter (fun e => e.user_id == w)
        [(⟨u, "coin_addition", ⟨amt, r, none, B + amt⟩⟩ : CoinTransaction)] = [] := by
      simp [Ne.symm hwu]
    rw [hf, List.append_nil]
    exact hlc w B' hw

/-- C7: for every state produced from an initial state with an empty log
and all balances 0 by successful debit/credit operations only, replaying
every account's log entries in order from 0 — adding the amount of each
`coin_addition` and subtracting the amount of each `coin_deduction` —
reproduces each entry's recorded `new_balance` exactly and ends at the
account's stored balance. -/
theorem claim_C7_log_self_verifying (s0 s : DBState)
    (hinit_tx : s0.coin_transactions = [])
    (hinit_bal : ∀ u B, lookupCoins s0.profiles u = some B → B = 0)
    (hreach : ReachableLedger s0 s) :
    ∀ u B, lookupCoins s.profiles u = some B →
      replayFrom 0 (userEntries s.coin_transactions u) = some B := by
  show LogConsistent s
  have h0 : LogConsistent s0 := by
    intro u B hB
    rw [hinit_tx]
    have := hinit_bal u B hB
    subst this
    rfl
  induction hreach with
  | refl => exact h0
  | step_deduct t t' u amt r g v hr hstep ih => exact logConsistent_deduct t t' u amt r g v ih hstep
  | step_add t t' u amt r v hr hstep ih => exact logConsistent_add t t' u amt r v ih hstep

/-- C7 witness: starting from account `u1` at 0 with an empty log, a
successful credit of 100 followed by a debit of 30 yields a log whose
replay from 0 reproduces both recorded balances and ends at the stored
balance 70. -/
theorem claim_C7_log_self_verifying_witness :
    replayFrom 0 (userEntries
      [⟨"u1", "coin_addition", ⟨100, "quiz_reward", none, 100⟩⟩,
       ⟨"u1", "coin_deduction", ⟨30, "game_unlock", some "g1", 70⟩⟩] "u1") = some 70 :=
  claim_C7_log_self_verifying ⟨[("u1", 0)], []⟩
    ⟨[("u1", 70)],
     [⟨"u1", "coin_addition", ⟨100, "quiz_reward", none, 100⟩⟩,
      ⟨"u1", "coin_deduction", ⟨30, "game_unlock", some "g1", 70⟩⟩]⟩
    rfl
    (by intro u B h
        simp only [lookupCoins] at h
        split at h
        · injection h with h
          omega
        · exact Option.noConfusion h)
    (ReachableLedger.step_deduct ⟨[("u1", 0)], []⟩
      ⟨[("u1", 100)], [⟨"u1", "coin_addition", ⟨100, "quiz_reward", none, 100⟩⟩]⟩ _
      "u1" 30 "game_unlock" (some "g1") 70
      (ReachableLedger.step_add ⟨[("u1", 0)], []⟩ ⟨[("u1", 0)], []⟩ _
        "u1" 100 "quiz_reward" 100 (ReachableLedger.refl _) (by rfl))
      (by rfl))
    "u1" 70 (by rfl)

theorem leadMatch_append_self (nd ys : List Char) : leadMatch nd (nd ++ ys) = true := by
  induction nd with
  | nil => rfl
  | cons a as ih => simp [leadMatch, ih]

theorem occursIn_of_leadMatch (nd l : List Char) (h : leadMatch nd l = true) :
    occursIn nd l = true := by
  cases l with
  | nil =>
    cases nd with
    | nil => rfl
    | cons a as => exact absurd h (by simp [leadMatch])
  | cons c cs => simp [occursIn, h]

theorem occursIn_append_right (nd xs ys : List Char) (h : occursIn nd ys = true) :
    occursIn nd (xs ++ ys) = true := by
  induction xs with
  | nil => simpa using h
  | cons x xs ih => simp [occursIn, ih]

theorem occursIn_sandwich (nd xs ys : List Char) : occursIn nd (xs ++ (nd ++ ys)) = true :=
  occursIn_append_right nd xs _ (occursIn_of_leadMatch nd _ (leadMatch_append_self nd ys))

/-- C8 (amended): for the canonical `deduct_user_coins` of
`SQL_SETUP.sql` (the file `setup-database.js` executes), whenever a
debit fails with the insufficient-balance error the raised error carries
both the account's current balance and the requested amount: the
exception's format arguments are exactly `v_current_coins` and
`p_amount`, and the rendered message contains the decimal rendering of
each.  (The duplicate definition inlined in `execute-setup.js` does not
satisfy this — see the counterexample.) -/
theorem claim_C8_insufficient_error_diagnostics (s : DBState) (u : String) (amt B : Int)
    (r : String) (g : Option String) (hl : lookupCoins s.profiles u = some B)
    (ha : 0 < amt) (hB : B < amt) :
    (deduct_user_coins s u amt r g).1 = .error (.insufficientCoins B amt) ∧
    errorMessage (.insufficientCoins B amt) =
      "Insufficient coins. Have: " ++ toString B ++ ", Need: " ++ toString amt ∧
    strOccursIn (toString B) (errorMessage (.insufficientCoins B amt)) = true ∧
    strOccursIn (toString amt) (errorMessage (.insufficientCoins B amt)) = true := by
  refine ⟨by rw [deduct_insufficient s u amt B r g ha hl hB], rfl, ?_, ?_⟩
  · show occursIn (toString B).toList
      ("Insufficient coins. Have: " ++ toString B ++ ", Need: " ++ toString amt).toList = true
    show occursIn (toString B).toList
      ("Insufficient coins. Have: " ++ toString B ++ ", Need: " ++ toString amt).data = true
    rw [String.data_append, String.data_append, String.data_append, List.append_assoc,
      List.append_assoc]
    exact occursIn_sandwich _ _ _
  · show occursIn (toString amt).toList
      ("Insufficient coins. Have: " ++ toString B ++ ", Need: " ++ toString amt).data = true
    rw [String.data_append]
    have h0 : (toString amt).data = (toString amt).data ++ [] := by simp
    rw [h0]
    exact occursIn_sandwich _ _ _

/-- C8 witness: at balance 5 a debit of 10 through the canonical
procedure yields the insufficient-coins error carrying 5 and 10, whose
message renders both numbers. -/
theorem claim_C8_insufficient_error_diagnostics_witness :
    (deduct_user_coins ⟨[("u1", 5)], []⟩ "u1" 10 "x" none).1 =
      .error (.insufficientCoins 5 10) ∧
    errorMessage (.insufficientCoins 5 10) =
      "Insufficient coins. Have: " ++ toString (5 : Int) ++ ", Need: " ++ toString (10 : Int) ∧
    strOccursIn (toString (5 : Int)) (errorMessage (.insufficientCoins 5 10)) = true ∧
    strOccursIn (toString (10 : Int)) (errorMessage (.insufficientCoins 5 10)) = true :=
  claim_C8_insufficient_error_diagnostics ⟨[("u1", 5)], []⟩ "u1" 10 5 "x" none
    (by rfl) (by decide) (by decide)

/-- C8 counterexample: the copy of `deduct_user_coins` installed by
`execute-setup.js` rejects a debit of 10 at balance 5 with the
insufficient-coins error, but the raised message is the bare
`'Insufficient coins'`, which contains neither the current balance 5 nor
the requested amount 10. -/
theorem claim_C8_counterexample :
    (deduct_user_coins_exec ⟨[("u1", 5)], []⟩ "u1" 10 "game_unlock" none).1 =
      .error .insufficientCoins ∧
    execErrorMessage .insufficientCoins = "Insufficient coins" ∧
    strOccursIn (toString (5 : Int)) (execErrorMessage .insufficientCoins) = false ∧
    strOccursIn (toString (10 : Int)) (execErrorMessage .insufficientCoins) = false :=
  ⟨by rfl, rfl, by rfl, by rfl⟩

/-- Run `n` calls of `deduct_user_coins` on the same account with the
same amount one after another — the serialization the `FOR UPDATE` row
lock enforces on concurrent callers of one account.  Returns the final
state and the list of the per-call results in execution order. -/
def runDeducts (s : DBState) (u : String) (amt : Int) (r : String) (g : Option String) :
    Nat → DBState × List (Except CoinError Int)
  | 0 => (s, [])
  | n + 1 =>
    let step := deduct_user_coins s u amt r g
    let rest := runDeducts step.2 u amt r g n
    (rest.1, step.1 :: rest.2)

/-- Did a ledger call commit (return a value) rather than raise? -/
def isOkResult : Except CoinError Int → Bool
  | .ok _ => true
  | .error _ => false

theorem runDeducts_spec (u : String) (amt : Int) (r : String) (g : Option String)
    (ha : 0 < amt) : ∀ (n : Nat) (s : DBState) (B : Int),
    lookupCoins s.profiles u = some B → 0 ≤ B →
    (runDeducts s u amt r g n).2.length = n ∧
    (runDeducts s u amt r g n).2.countP isOkResult = min n (B.toNat / amt.toNat) ∧
    (∀ e ∈ (runDeducts s u amt r g n).2, isOkResult e = false →
      ∃ c, e = .error (.insufficientCoins c amt)) ∧
    lookupCoins (runDeducts s u amt r g n).1.profiles u =
      some (B - (min n (B.toNat / amt.toNat) : Nat) * amt) := by
  intro n
  induction n with
  | zero =>
    intro s B hl hB
    refine ⟨rfl, by simp [runDeducts], by simp [runDeducts], ?_⟩
    simpa [runDeducts] using hl
  | succ n ih =>
    intro s B hl hB
    have hrun : runDeducts s u amt r g (n + 1) =
        ((runDeducts (deduct_user_coins s u amt r g).2 u amt r g n).1,
         (deduct_user_coins s u amt r g).1 ::
           (runDeducts (deduct_user_coins s u amt r g).2 u amt r g n).2) := rfl
    by_cases hBa : B < amt
    · have hq : B.toNat / amt.toNat = 0 := Nat.div_eq_of_lt (by omega)
      have hstep := deduct_insufficient s u amt B r g ha hl hBa
      obtain ⟨ih1, ih2, ih3, ih4⟩ := ih s B hl hB
      rw [hrun, hstep]
      dsimp only
      refine ⟨?_, ?_, ?_, ?_⟩
      · simpa using ih1
      · simp only [List.countP_cons]
        rw [ih2, hq]
        simp [isOkResult]
      · intro e he hne
        rcases List.mem_cons.mp he with h | h
        · exact ⟨B, h⟩
        · exact ih3 e h hne
      · rw [hq] at ih4 ⊢
        simpa using ih4
    · push_neg at hBa
      have hstep := deduct_ok s u amt B r g ha hl hBa
      have hl1 : lookupCoins (setCoins s.profiles u (B - amt)) u = some (B - amt) := by
        simp [lookupCoins_setCoins_self, hl]
      have hq : B.toNat / amt.toNat = (B - amt).toNat / amt.toNat + 1 := by
        have h1 : (B - amt).toNat = B.toNat - amt.toNat := by omega
        rw [h1]
        exact Nat.div_eq_sub_div (by omega) (by omega)
      rw [hrun, hstep]
      dsimp only
      obtain ⟨ih1, ih2, ih3, ih4⟩ := ih (deduct_user_coins s u amt r g).2 (B - amt)
        (by rw [hstep]; exact hl1) (by omega)
      rw [hstep] at ih1 ih2 ih3 ih4
      refine ⟨?_, ?_, ?_, ?_⟩
      · simpa using ih1
      · simp only [List.countP_cons]
        rw [ih2, hq, Nat.succ_min_succ]
        simp [isOkResult]
      · intro e he hne
        rcases List.mem_cons.mp he with h | h
        · rw [h] at hne
          simp [isOkResult] at hne
        · exact ih3 e h hne
      · rw [ih4, hq, Nat.succ_min_succ]
        refine congrArg some ?_
        push_cast
        ring

/-- C9: under the per-account serialization the `SELECT ... FOR UPDATE`
row lock enforces (concurrent debits on one account execute one after
another, each reading the balance the previous one committed), N debits
of the same amount `amt` on an account with balance `B`, each
individually valid (`0 < amt ≤ B`) but with `N * amt > B`, produce
exactly `⌊B / amt⌋` successes; every failing call fails with the
insufficient-balance error; and after every prefix of the run the
stored balance exists and is non-negative. -/
theorem claim_C9_concurrent_overdebits (s : DBState) (u : String) (amt B : Int) (r : String)
    (g : Option String) (N : Nat) (hl : lookupCoins s.profiles u = some B) (hB0 : 0 ≤ B)
    (ha : 0 < amt) (hValid : amt ≤ B) (hsum : B < N * amt) :
    (runDeducts s u amt r g N).2.length = N ∧
    (runDeducts s u amt r g N).2.countP isOkResult = B.toNat / amt.toNat ∧
    (∀ e ∈ (runDeducts s u amt r g N).2, isOkResult e = false →
      ∃ c, e = .error (.insufficientCoins c amt)) ∧
    (∀ k : Nat, ∃ Bk, 0 ≤ Bk ∧
      lookupCoins (runDeducts s u amt r g k).1.profiles u = some Bk) := by
  have hqN : B.toNat / amt.toNat < N := by
    rw [Nat.div_lt_iff_lt_mul (by omega : 0 < amt.toNat)]
    have h1 : (B.toNat : Int) < (N : Int) * ((amt.toNat : Int)) := by
      rw [Int.toNat_of_nonneg hB0, Int.toNat_of_nonneg (le_of_lt ha)]
      exact hsum
    exact_mod_cast h1
  obtain ⟨h1, h2, h3, _⟩ := runDeducts_spec u amt r g ha N s B hl hB0
  refine ⟨h1, ?_, h3, ?_⟩
  · rw [h2, min_eq_right (Nat.le_of_lt hqN)]
  · intro k
    obtain ⟨-, -, -, h4⟩ := runDeducts_spec u amt r g ha k s B hl hB0
    refine ⟨B - (min k (B.toNat / amt.toNat) : Nat) * amt, ?_, h4⟩
    have hm : (min k (B.toNat / amt.toNat)) * amt.toNat ≤ B.toNat :=
      le_trans (Nat.mul_le_mul_right _ (Nat.min_le_right _ _)) (Nat.div_mul_le_self _ _)
    have hmi := Int.ofNat_le.mpr hm
    push_cast at hmi ⊢
    rw [Int.toNat_of_nonneg hB0, Int.toNat_of_nonneg (le_of_lt ha)] at hmi ⊢
    linarith

/-- C9 witness: balance 5, three serialized debits of 2 (sum 6 exceeds
5): exactly two succeed, every failure is the insufficient-balance
error, and the balance stays non-negative after every prefix. -/
theorem claim_C9_concurrent_overdebits_witness :
    (runDeducts ⟨[("u1", 5)], []⟩ "u1" 2 "x" none 3).2.length = 3 ∧
    (runDeducts ⟨[("u1", 5)], []⟩ "u1" 2 "x" none 3).2.countP isOkResult = 2 ∧
    (∀ e ∈ (runDeducts ⟨[("u1", 5)], []⟩ "u1" 2 "x" none 3).2, isOkResult e = false →
      ∃ c, e = .error (.insufficientCoins c 2)) ∧
    (∀ k : Nat, ∃ Bk, 0 ≤ Bk ∧
      lookupCoins (runDeducts ⟨[("u1", 5)], []⟩ "u1" 2 "x" none k).1.profiles "u1" =
        some Bk) :=
  claim_C9_concurrent_overdebits ⟨[("u1", 5)], []⟩ "u1" 2 5 "x" none 3 (by rfl)
    (by decide) (by decide) (by decide) (by decide)
